import Mathlib

set_option linter.unusedSectionVars false

/-!
Verification of the EMAT `Database` storage contract
(`src/emat/database/database.py`) against its natural-language
specification.

The Python source is an abstract base class: only `get_db_info` and
`write_experiment_parameters_1` carry executable bodies.  Those two are
embedded directly from the source.  Every other operation is declared
abstract in the source (a docstring only), so the corresponding Lean
definitions are modelled from the specification's words; each such
definition says so in its doc comment.

Values of experiment parameters and performance measures are drawn from
an arbitrary type `V` with decidable equality; tabular datasets are
lists of rows, a row being an association list from column name to
value whose lookup takes the first matching entry (as a Python dict
lookup does).
-/

namespace EmatDB

/-- Error taxonomy of the specification (section 7): NotFound, Conflict,
InvalidArgument, AmbiguousSource. -/
inductive Err where
  | notFound
  | conflict
  | invalidArgument
  | ambiguousSource
deriving DecidableEq, Repr

/-- A row of a tabular dataset: an association list from column name to
value.  Lookup returns the first matching entry, mirroring a Python
dict lookup. -/
abbrev Row (V : Type) := List (String × V)

/-- One stored experiment: its scope-unique integer id, the design name
it belongs to, and one value per variable. -/
structure Experiment (V : Type) where
  exp_id : Nat
  design : String
  values : Row V
deriving DecidableEq, Repr

/-- One stored measure record: keyed by experiment id, source id and
measure name, holding a value (spec section 3, "Measure record"). -/
structure MeasureRec (V : Type) where
  exp_id : Nat
  source : Nat
  measure : String
  value : V
deriving DecidableEq, Repr

/-- One stored box: its name and its optional parent box name (none for
a root box). -/
structure BoxRec where
  box_name : String
  parent : Option String
deriving DecidableEq, Repr

/-- The database state: the set of registered scope names, a per-scope
next-experiment-id counter (an association list defaulting to 0), and
the experiment, measure, box and metamodel stores, each tagging every
record with its owning scope name. -/
structure DB (V : Type) where
  scopes : List String
  next_id : List (String × Nat)
  experiments : List (String × Experiment V)
  measures : List (String × MeasureRec V)
  boxes : List (String × BoxRec)
  metamodels : List (String × Nat)
deriving DecidableEq, Repr

variable {V : Type} [DecidableEq V]

/-- The next experiment id to be assigned in a scope (0 if the scope has
never assigned one). -/
def get_next (m : List (String × Nat)) (s : String) : Nat :=
  (List.lookup s m).getD 0

/-- The ids of all experiments stored under a scope. -/
def ids_of (db : DB V) (scope_name : String) : List Nat :=
  (db.experiments.filter (fun p => p.1 == scope_name)).map (fun p => p.2.exp_id)

/-- Embedding of `Database.get_db_info` (source lines 22-29): the base
class returns the constant string, ignoring all stored state. -/
def get_db_info (_db : DB V) : String := "no info available"

/-- Modelled from the spec: `write_experiment_parameters` is abstract in
the source.  Spec section 4.2: assigns a new unique id per row
(monotonic, scope-scoped), persists the design association, returns the
ordered list of assigned ids, and fails NotFound if the scope is
absent. -/
def write_experiment_parameters (db : DB V) (scope_name design_name : String)
    (xl_df : List (Row V)) : Except Err (DB V × List Nat) :=
  if scope_name ∈ db.scopes then
    let n := get_next db.next_id scope_name
    let ids := (List.range xl_df.length).map (fun j => n + j)
    let newExps := (xl_df.zip ids).map
      (fun p => (scope_name, Experiment.mk p.2 design_name p.1))
    .ok ({ db with
            next_id := (scope_name, n + xl_df.length) :: db.next_id,
            experiments := db.experiments ++ newExps }, ids)
  else .error .notFound

/-- Embedding of the dict merge inside `write_experiment_parameters_1`
(source lines 157-160): `parameters.update(a)` makes the entries of `a`
override those of `parameters` on lookup, so at the lookup level the
updated dict is `a` in front of `parameters`. -/
def dict_update (d e : Row V) : Row V := e ++ d

/-- Embedding of source lines 157-160: start from an empty dict, update
with each positional mapping in order, then update with the keyword
mapping. -/
def merged_parameters (args : List (Row V)) (kwargs : Row V) : Row V :=
  dict_update (args.foldl dict_update []) kwargs

/-- Embedding of `Database.write_experiment_parameters_1` (source lines
138-163): merge the positional and keyword mappings, build a one-row
tabular dataset from the merged mapping, submit it to the batch
operation `write_experiment_parameters`, and return element 0 of the
returned id list.  Element 0 of an empty list is a Python IndexError,
rendered here as an `invalidArgument` error (the branch is unreachable:
the batch operation returns one id for a one-row dataset). -/
def write_experiment_parameters_1 (db : DB V) (scope_name design_name : String)
    (args : List (Row V)) (kwargs : Row V) : Except Err (DB V × Nat) :=
  let parameters := merged_parameters args kwargs
  let xl_df := [parameters]
  match write_experiment_parameters db scope_name design_name xl_df with
  | .error e => .error e
  | .ok (db2, result) =>
    match result with
    | [] => .error .invalidArgument
    | i :: _ => .ok (db2, i)

/-- The value a key takes among the positional mappings once they are
merged left to right with later values winning: the value in the last
mapping that contains the key, if any. -/
def last_value (args : List (Row V)) (k : String) : Option V :=
  args.foldl (fun acc d => (List.lookup k d).or acc) none

/-- Modelled from the spec: `write_experiment_measures` is abstract in
the source.  Spec section 4.3: rows are indexed by experiment id with
measure-name columns; writes or overwrites one record per (experiment
id, source, measure); a documented silent no-op when the scope does not
exist. -/
def write_experiment_measures (db : DB V) (scope_name : String) (source : Nat)
    (m_df : List (Nat × Row V)) : Except Err (DB V) :=
  if scope_name ∈ db.scopes then
    let newRecs := m_df.flatMap
      (fun r => r.2.map (fun c => (scope_name, MeasureRec.mk r.1 source c.1 c.2)))
    let kept := db.measures.filter (fun p =>
      !(p.1 == scope_name && p.2.source == source
        && m_df.any (fun r => r.1 == p.2.exp_id
            && r.2.any (fun c => c.1 == p.2.measure))))
    .ok { db with measures := newRecs ++ kept }
  else .ok db

/-- The experiments stored under a scope, optionally narrowed to one
design (a `none` design keeps every design). -/
def experimentsOf (db : DB V) (scope_name : String) (design : Option String) :
    List (Experiment V) :=
  (db.experiments.filter (fun p => p.1 == scope_name
    && (match design with | none => true | some d => p.2.design == d))).map Prod.snd

/-- Whether any measure record exists for an experiment of a scope,
under any source. -/
def has_measures (db : DB V) (scope_name : String) (eid : Nat) : Bool :=
  db.measures.any (fun p => p.1 == scope_name && p.2.exp_id == eid)

/-- Modelled from the spec: `read_experiment_parameters` is abstract in
the source.  Spec section 4.2: returns all experiments of the scope,
optionally filtered to one design and optionally filtered to pending
experiments only (those with no measure record under any source); fails
NotFound when the scope is absent. -/
def read_experiment_parameters (db : DB V) (scope_name : String)
    (design : Option String) (only_pending : Bool) :
    Except Err (List (Experiment V)) :=
  if scope_name ∈ db.scopes then
    let exps := experimentsOf db scope_name design
    .ok (if only_pending then
          exps.filter (fun e => !(has_measures db scope_name e.exp_id))
         else exps)
  else .error .notFound

/-- The measure records stored under a scope. -/
def measuresOf (db : DB V) (scope_name : String) : List (MeasureRec V) :=
  (db.measures.filter (fun p => p.1 == scope_name)).map Prod.snd

/-- The distinct source ids under which measures are stored for a
scope. -/
def sourcesOf (db : DB V) (scope_name : String) : List Nat :=
  ((measuresOf db scope_name).map MeasureRec.source).dedup

/-- Modelled from the spec: the shared source-resolution policy of the
measure reads (spec sections 4.3 and 9): an explicit source is used as
given; an omitted source resolves to the unique stored source when
exactly one exists, stays unresolved when no measures are stored, and
fails AmbiguousSource when measures exist under more than one
source. -/
def resolve_source (db : DB V) (scope_name : String) (source : Option Nat) :
    Except Err (Option Nat) :=
  match source with
  | some s => .ok (some s)
  | none =>
    match sourcesOf db scope_name with
    | [] => .ok none
    | [s] => .ok (some s)
    | _ => .error .ambiguousSource

/-- Modelled from the spec: `read_experiment_measures` is abstract in
the source.  Spec section 4.3: returns the measure records of the
scope's experiments (narrowed to one design when given, and to one
experiment id when given), under the resolved source; fails NotFound
when the scope is absent and AmbiguousSource per the source-resolution
rule. -/
def read_experiment_measures (db : DB V) (scope_name : String)
    (design : Option String) (experiment_id : Option Nat) (source : Option Nat) :
    Except Err (List (MeasureRec V)) :=
  if scope_name ∈ db.scopes then
    match resolve_source db scope_name source with
    | .error e => .error e
    | .ok s? =>
      let eids := (experimentsOf db scope_name design).map Experiment.exp_id
      .ok ((measuresOf db scope_name).filter (fun m =>
          eids.contains m.exp_id
          && (match s? with | none => true | some s => m.source == s)
          && (match experiment_id with | none => true | some i => m.exp_id == i)))
  else .error .notFound

/-- Modelled from the spec: `read_experiment_all` is abstract in the
source.  Spec section 4.3: joins parameters and measures into one
dataset, applying the same source-resolution rule and the same pending
filter as the component reads. -/
def read_experiment_all (db : DB V) (scope_name : String)
    (design : Option String) (source : Option Nat) (only_pending : Bool) :
    Except Err (List (Experiment V × List (MeasureRec V))) :=
  if scope_name ∈ db.scopes then
    match resolve_source db scope_name source with
    | .error e => .error e
    | .ok s? =>
      match read_experiment_parameters db scope_name design only_pending with
      | .error e => .error e
      | .ok exps =>
        .ok (exps.map (fun e => (e, (measuresOf db scope_name).filter (fun m =>
            m.exp_id == e.exp_id
            && (match s? with | none => true | some s => m.source == s)))))
  else .error .notFound

/-- Whether a stored experiment agrees with a (possibly incomplete)
query row on every column the row mentions. -/
def row_matches (e : Experiment V) (row : Row V) : Bool :=
  row.all (fun kv => decide (List.lookup kv.1 e.values = some kv.2))

/-- The stored experiments of a scope (narrowed to one design when
given) matching a query row. -/
def matching_experiments (db : DB V) (scope_name : String)
    (design : Option String) (row : Row V) : List (Experiment V) :=
  (experimentsOf db scope_name design).filter (fun e => row_matches e row)

/-- The row-by-row reverse lookup underlying `read_experiment_ids`: a
row matching exactly one stored experiment contributes that
experiment's id, a row matching none contributes nothing, and a row
matching more than one stored experiment aborts the whole lookup with
InvalidArgument (the spec calls such a row an ambiguous definition). -/
def lookup_ids (db : DB V) (scope_name : String) (design_name : Option String) :
    List (Row V) → Except Err (List Nat)
  | [] => .ok []
  | row :: rest =>
    match matching_experiments db scope_name design_name row with
    | [] => lookup_ids db scope_name design_name rest
    | [e] => (lookup_ids db scope_name design_name rest).map
        (fun ids => e.exp_id :: ids)
    | _ :: _ :: _ => .error .invalidArgument

/-- Modelled from the spec: `read_experiment_ids` is abstract in the
source.  Spec section 4.2: a reverse lookup from full or incomplete
parameter rows to the matching experiment ids; fails InvalidArgument
when a row's values match more than one stored experiment and NotFound
when the scope is absent; a `none` design searches across all
designs. -/
def read_experiment_ids (db : DB V) (scope_name : String)
    (design_name : Option String) (xl_df : List (Row V)) :
    Except Err (List Nat) :=
  if scope_name ∈ db.scopes then lookup_ids db scope_name design_name xl_df
  else .error .notFound

/-- Modelled from the spec: `delete_scope` is abstract in the source.
Spec sections 4.1 and 3: removes the scope and cascades deletion to all
experiments, measures, boxes and metamodels stored under its name. -/
def delete_scope (db : DB V) (scope_name : String) : DB V :=
  { scopes := db.scopes.filter (fun s => !(s == scope_name))
    next_id := db.next_id
    experiments := db.experiments.filter (fun p => !(p.1 == scope_name))
    measures := db.measures.filter (fun p => !(p.1 == scope_name))
    boxes := db.boxes.filter (fun p => !(p.1 == scope_name))
    metamodels := db.metamodels.filter (fun p => !(p.1 == scope_name)) }

/-- Modelled from the spec: `delete_experiments` is abstract in the
source.  Spec section 4.2: removes all experiments of a (scope, design)
pair and, transitively, their measures; the per-scope id counter is
untouched, so retired ids are never reallocated. -/
def delete_experiments (db : DB V) (scope_name design_name : String) : DB V :=
  let deleted := (db.experiments.filter (fun p =>
      p.1 == scope_name && p.2.design == design_name)).map (fun p => p.2.exp_id)
  { db with
      experiments := db.experiments.filter (fun p =>
        !(p.1 == scope_name && p.2.design == design_name))
      measures := db.measures.filter (fun p =>
        !(p.1 == scope_name && deleted.contains p.2.exp_id)) }

/-- Modelled from the spec: `read_scope_names` is abstract in the
source.  Spec section 4.1: lists all scope names, optionally filtered
to scopes containing at least one design with the given name. -/
def read_scope_names (db : DB V) (design_name : Option String) : List String :=
  match design_name with
  | none => db.scopes
  | some d => db.scopes.filter (fun s =>
      db.experiments.any (fun p => p.1 == s && p.2.design == d))

/-- The boxes stored under a scope. -/
def boxesOf (db : DB V) (scope_name : String) : List BoxRec :=
  (db.boxes.filter (fun p => p.1 == scope_name)).map Prod.snd

/-- Modelled from the spec: `read_boxes` is abstract in the source.
Spec section 4.5: retrieves all boxes of a scope; NotFound when the
scope is absent. -/
def read_boxes (db : DB V) (scope_name : String) : Except Err (List BoxRec) :=
  if scope_name ∈ db.scopes then .ok (boxesOf db scope_name)
  else .error .notFound

/-- Modelled from the spec: `read_metamodel_ids` is abstract in the
source.  Spec section 4.4: enumerates the metamodel ids of a scope;
NotFound when the scope is absent. -/
def read_metamodel_ids (db : DB V) (scope_name : String) :
    Except Err (List Nat) :=
  if scope_name ∈ db.scopes then
    .ok ((db.metamodels.filter (fun p => p.1 == scope_name)).map Prod.snd)
  else .error .notFound

/-- Modelled from the spec: `read_box_parent_name` is abstract in the
source.  Spec section 4.5: returns the parent name of the named box, or
a none value when the box is a root; NotFound when the box is
absent. -/
def read_box_parent_name (db : DB V) (scope_name box_name : String) :
    Except Err (Option String) :=
  match (boxesOf db scope_name).find? (fun b => b.box_name == box_name) with
  | some b => .ok b.parent
  | none => .error .notFound

/-- Modelled from the spec: `read_box_parent_names` is abstract in the
source.  Spec section 4.5: the bulk mapping from each box name of the
scope to its parent name (or none). -/
def read_box_parent_names (db : DB V) (scope_name : String) :
    List (String × Option String) :=
  (boxesOf db scope_name).map (fun b => (b.box_name, b.parent))

/-- The upper-bound invariant of the per-scope id counter: every stored
experiment id of the scope is below the scope's next id.  It holds of
an empty store and, as proved below, is preserved by writes and
deletions; it is what makes newly assigned ids fresh. -/
def id_invariant (db : DB V) (scope_name : String) : Prop :=
  ∀ i ∈ ids_of db scope_name, i < get_next db.next_id scope_name

/-! Helper lemmas about association-list lookup and the dict merge. -/

theorem lookup_append (k : String) (l₁ l₂ : Row V) :
    List.lookup k (l₁ ++ l₂) = (List.lookup k l₁).or (List.lookup k l₂) := by
  induction l₁ with
  | nil => simp [List.lookup]
  | cons h t ih =>
    simp only [List.cons_append, List.lookup]
    split <;> simp [ih]

theorem last_value_foldl (k : String) (args : List (Row V)) (a : Option V) :
    args.foldl (fun acc d => (List.lookup k d).or acc) a
      = (last_value args k).or a := by
  induction args generalizing a with
  | nil => simp [last_value]
  | cons d ds ih =>
    simp only [last_value, List.foldl_cons] at *
    rw [ih, ih ((List.lookup k d).or none)]
    simp [Option.or_assoc]

theorem lookup_foldl_dict_update (k : String) (args : List (Row V)) (a : Row V) :
    List.lookup k (args.foldl dict_update a)
      = (last_value args k).or (List.lookup k a) := by
  induction args generalizing a with
  | nil => simp [last_value]
  | cons d ds ih =>
    simp only [List.foldl_cons]
    rw [ih]
    simp only [dict_update, lookup_append]
    have h : last_value (d :: ds) k = (last_value ds k).or (List.lookup k d) := by
      simp only [last_value, List.foldl_cons, Option.or_none]
      exact last_value_foldl k ds (List.lookup k d)
    rw [h, Option.or_assoc]

theorem lookup_merged_parameters (k : String) (args : List (Row V)) (kwargs : Row V) :
    List.lookup k (merged_parameters args kwargs)
      = (List.lookup k kwargs).or (last_value args k) := by
  simp only [merged_parameters, dict_update, lookup_append,
    lookup_foldl_dict_update]
  simp [List.lookup]

/-- C10: as defined on the base class, `get_db_info` returns the
constant string "no info available" for every instance, independent of
any stored state. -/
theorem get_db_info_constant (db : DB V) :
    get_db_info db = "no info available" := rfl

/-- C1: `write_experiment_parameters_1` is implemented purely by
building a single one-row tabular dataset from the merged mapping and
submitting it to `write_experiment_parameters`: it propagates the batch
operation's error unchanged, and on success the batch operation assigns
exactly one id and the wrapper returns that first (and only) id
together with the batch operation's resulting state. -/
theorem write_experiment_parameters_1_delegates (db : DB V)
    (scope_name design_name : String) (args : List (Row V)) (kwargs : Row V) :
    (∀ e, write_experiment_parameters db scope_name design_name
        [merged_parameters args kwargs] = .error e →
      write_experiment_parameters_1 db scope_name design_name args kwargs
        = .error e)
    ∧ ∀ db2 ids, write_experiment_parameters db scope_name design_name
        [merged_parameters args kwargs] = .ok (db2, ids) →
      ids.length = 1 ∧
      write_experiment_parameters_1 db scope_name design_name args kwargs
        = .ok (db2, ids.headI) := by
  constructor
  · intro e h
    simp only [write_experiment_parameters_1, h]
  · intro db2 ids h
    have hlen : ids.length = 1 := by
      unfold write_experiment_parameters at h
      split at h
      · simp only [Except.ok.injEq, Prod.mk.injEq] at h
        simp [← h.2]
      · exact absurd h (by simp)
    refine ⟨hlen, ?_⟩
    simp only [write_experiment_parameters_1, h]
    match ids, hlen with
    | [i], _ => rfl

/-- Witness for C1 at a concrete database: one positional mapping and a
keyword override produce one new experiment carrying the merged row and
the wrapper returns the single assigned id 0. -/
theorem write_experiment_parameters_1_delegates_witness :
    write_experiment_parameters_1 (DB.mk ["s"] [] [] [] [] [] : DB Nat)
        "s" "d" [[("x", 1)]] [("x", 2)]
      = .ok (DB.mk ["s"] [("s", 1)]
          [("s", Experiment.mk 0 "d" [("x", 2), ("x", 1)])] [] [] [], 0) :=
  ((write_experiment_parameters_1_delegates
      (DB.mk ["s"] [] [] [] [] []) "s" "d" [[("x", 1)]] [("x", 2)]).2
    (DB.mk ["s"] [("s", 1)]
      [("s", Experiment.mk 0 "d" [("x", 2), ("x", 1)])] [] [] []) [0] rfl).2

/-- C2: in the merge performed by `write_experiment_parameters_1`, the
value submitted for a key is the last one in merge order: a keyword
value always wins, otherwise the value from the last positional mapping
containing the key wins (appending a later positional mapping that
contains the key overrides every earlier one). -/
theorem merged_parameters_last_wins (args : List (Row V)) (kwargs : Row V)
    (k : String) :
    (∀ v, List.lookup k kwargs = some v →
        List.lookup k (merged_parameters args kwargs) = some v)
    ∧ (List.lookup k kwargs = none →
        List.lookup k (merged_parameters args kwargs) = last_value args k)
    ∧ (∀ d v, List.lookup k d = some v →
        last_value (args ++ [d]) k = some v) := by
  refine ⟨?_, ?_, ?_⟩
  · intro v hv
    rw [lookup_merged_parameters, hv]
    rfl
  · intro hn
    rw [lookup_merged_parameters, hn, Option.none_or]
  · intro d v hv
    simp only [last_value, List.foldl_append, List.foldl_cons, List.foldl_nil, hv]
    rfl

/-- Witness for C2 at concrete mappings: the keyword value wins over
both positional values, a later positional mapping wins over an
earlier one when the keyword omits the key, and appending a mapping
containing the key overrides it. -/
theorem merged_parameters_last_wins_witness :
    List.lookup "x"
        (merged_parameters [[("x", 1), ("y", 3)], [("x", 2)]] [("x", 5)] : Row Nat)
      = some 5
    ∧ List.lookup "y"
        (merged_parameters [[("x", 1), ("y", 3)], [("y", 4)]] ([] : Row Nat))
      = some 4
    ∧ last_value ([[("y", 3)]] ++ [[("y", 4)]] : List (Row Nat)) "y" = some 4 :=
  ⟨(merged_parameters_last_wins [[("x", 1), ("y", 3)], [("x", 2)]]
      [("x", 5)] "x").1 5 rfl,
   ((merged_parameters_last_wins [[("x", 1), ("y", 3)], [("y", 4)]]
      [] "y").2.1 rfl).trans rfl,
   (merged_parameters_last_wins [[("y", 3)]] [] "y").2.2 [("y", 4)] 4 rfl⟩

/-- C3: writing measures for a scope name absent from the store is a
silent no-op — the call succeeds, records nothing and leaves the state
unchanged — whereas writing experiment parameters for the same absent
scope fails with NotFound. -/
theorem write_experiment_measures_missing_scope_noop (db : DB V)
    (scope_name : String) (source : Nat) (m_df : List (Nat × Row V))
    (h : scope_name ∉ db.scopes) :
    write_experiment_measures db scope_name source m_df = .ok db
    ∧ ∀ design_name xl_df,
        write_experiment_parameters db scope_name design_name xl_df
          = .error .notFound := by
  constructor
  · simp [write_experiment_measures, h]
  · intro design_name xl_df
    simp [write_experiment_parameters, h]

/-- Witness for C3 at a concrete database holding one scope: writing
measures under an unregistered scope name returns the state unchanged
while the parameter write fails NotFound. -/
theorem write_experiment_measures_missing_scope_noop_witness :
    write_experiment_measures (DB.mk ["s"] [] [] [] [] [] : DB Nat)
        "t" 0 [(0, [("m", 7)])] = .ok (DB.mk ["s"] [] [] [] [] [])
    ∧ ∀ design_name xl_df,
        write_experiment_parameters (DB.mk ["s"] [] [] [] [] [] : DB Nat)
          "t" design_name xl_df = .error .notFound :=
  write_experiment_measures_missing_scope_noop
    (DB.mk ["s"] [] [] [] [] []) "t" 0 [(0, [("m", 7)])] (by decide)

/-- C4: source resolution for measure reads.  When the stored measures
of the scope come from exactly one source, a read omitting the source
succeeds and equals the read naming that source explicitly; when they
come from more than one source, the read omitting the source fails
with AmbiguousSource; naming a source explicitly returns only that
source's values.  Both `read_experiment_measures` and
`read_experiment_all` obey the rule. -/
theorem measure_read_source_resolution (db : DB V) (scope_name : String)
    (design : Option String) (experiment_id : Option Nat)
    (hs : scope_name ∈ db.scopes) :
    (∀ s0, sourcesOf db scope_name = [s0] →
      read_experiment_measures db scope_name design experiment_id none
        = read_experiment_measures db scope_name design experiment_id (some s0)
      ∧ (∃ res, read_experiment_measures db scope_name design experiment_id none
          = .ok res)
      ∧ ∀ op, read_experiment_all db scope_name design none op
          = read_experiment_all db scope_name design (some s0) op)
    ∧ (∀ s1 s2, s1 ∈ sourcesOf db scope_name → s2 ∈ sourcesOf db scope_name →
        s1 ≠ s2 →
      read_experiment_measures db scope_name design experiment_id none
        = .error .ambiguousSource
      ∧ ∀ op, read_experiment_all db scope_name design none op
          = .error .ambiguousSource)
    ∧ (∀ s res,
        read_experiment_measures db scope_name design experiment_id (some s)
          = .ok res → ∀ m ∈ res, m.source = s)
    ∧ (∀ s op res, read_experiment_all db scope_name design (some s) op
          = .ok res → ∀ e ∈ res, ∀ m ∈ e.2, m.source = s) := by
  refine ⟨?_, ?_, ?_, ?_⟩
  · intro s0 hl
    refine ⟨?_, ?_, ?_⟩
    · simp only [read_experiment_measures, if_pos hs, resolve_source, hl]
    · simp only [read_experiment_measures, if_pos hs, resolve_source, hl]
      exact ⟨_, rfl⟩
    · intro op
      simp only [read_experiment_all, if_pos hs, resolve_source, hl]
  · intro s1 s2 hs1 hs2 hne
    have hres : resolve_source db scope_name none = .error .ambiguousSource := by
      unfold resolve_source
      cases hl : sourcesOf db scope_name with
      | nil => rw [hl] at hs1; exact absurd hs1 (List.not_mem_nil s1)
      | cons a t =>
        cases t with
        | nil =>
          rw [hl] at hs1 hs2
          simp only [List.mem_singleton] at hs1 hs2
          exact absurd (hs1.trans hs2.symm) hne
        | cons b t2 => rfl
    constructor
    · simp only [read_experiment_measures, if_pos hs, hres]
    · intro op
      simp only [read_experiment_all, if_pos hs, hres]
  · intro s res h m hm
    simp only [read_experiment_measures, if_pos hs, resolve_source,
      Except.ok.injEq] at h
    rw [← h] at hm
    simp only [List.mem_filter, Bool.and_eq_true, beq_iff_eq] at hm
    exact hm.2.1.2
  · intro s op res h e he m hm
    simp only [read_experiment_all, if_pos hs, resolve_source] at h
    split at h
    · exact absurd h (by simp)
    · simp only [Except.ok.injEq] at h
      rw [← h] at he
      simp only [List.mem_map] at he
      obtain ⟨e0, _, he0⟩ := he
      rw [← he0] at hm
      simp only [List.mem_filter, Bool.and_eq_true, beq_iff_eq] at hm
      exact hm.2.2

/-- Witness for C4 at concrete databases: with measures stored under
sources 0 and 3, the read omitting the source fails AmbiguousSource;
with measures stored under source 3 only, the read omitting the source
succeeds. -/
theorem measure_read_source_resolution_witness :
    read_experiment_measures
        (DB.mk ["s"] [("s", 1)] [("s", Experiment.mk 0 "d" [("x", 1)])]
          [("s", MeasureRec.mk 0 0 "m" 10), ("s", MeasureRec.mk 0 3 "m" 30)]
          [] [] : DB Nat) "s" none none none
      = .error .ambiguousSource
    ∧ ∃ res, read_experiment_measures
        (DB.mk ["s"] [("s", 1)] [("s", Experiment.mk 0 "d" [("x", 1)])]
          [("s", MeasureRec.mk 0 3 "m" 30)] [] [] : DB Nat) "s" none none none
      = .ok res :=
  ⟨((measure_read_source_resolution
      (DB.mk ["s"] [("s", 1)] [("s", Experiment.mk 0 "d" [("x", 1)])]
        [("s", MeasureRec.mk 0 0 "m" 10), ("s", MeasureRec.mk 0 3 "m" 30)]
        [] []) "s" none none (by decide)).2.1
      0 3 (by decide) (by decide) (by decide)).1,
   ((measure_read_source_resolution
      (DB.mk ["s"] [("s", 1)] [("s", Experiment.mk 0 "d" [("x", 1)])]
        [("s", MeasureRec.mk 0 3 "m" 30)] [] []) "s" none none
      (by decide)).1 3 (by decide)).2.1⟩

theorem lookup_ids_ambiguous (db : DB V) (scope_name : String)
    (design_name : Option String) (xl_df : List (Row V)) (row : Row V)
    (hrow : row ∈ xl_df) (e1 e2 : Experiment V)
    (h1 : e1 ∈ matching_experiments db scope_name design_name row)
    (h2 : e2 ∈ matching_experiments db scope_name design_name row)
    (hne : e1 ≠ e2) :
    lookup_ids db scope_name design_name xl_df = .error .invalidArgument := by
  induction xl_df with
  | nil => cases hrow
  | cons x xs ih =>
    rcases List.mem_cons.mp hrow with hx | hxs
    · subst hx
      cases hml : matching_experiments db scope_name design_name row with
      | nil => rw [hml] at h1; cases h1
      | cons a t =>
        cases t with
        | nil =>
          rw [hml] at h1 h2
          simp only [List.mem_singleton] at h1 h2
          exact absurd (h1.trans h2.symm) hne
        | cons b t2 =>
          unfold lookup_ids
          rw [hml]
    · have hrest := ih hxs
      simp only [lookup_ids]
      cases hml : matching_experiments db scope_name design_name x with
      | nil => exact hrest
      | cons a t =>
        cases t with
        | nil => rw [hrest]; rfl
        | cons b t2 => rfl

theorem lookup_ids_ok (db : DB V) (scope_name : String)
    (design_name : Option String) :
    ∀ (xl_df : List (Row V)) ids,
      lookup_ids db scope_name design_name xl_df = .ok ids →
      ∀ i ∈ ids, ∃ row ∈ xl_df,
        ∃ e ∈ matching_experiments db scope_name design_name row,
          e.exp_id = i := by
  intro xl_df
  induction xl_df with
  | nil =>
    intro ids h i hi
    simp only [lookup_ids, Except.ok.injEq] at h
    rw [← h] at hi
    cases hi
  | cons x xs ih =>
    intro ids h i hi
    simp only [lookup_ids] at h
    split at h
    · obtain ⟨row, hrow, e, he, hei⟩ := ih ids h i hi
      exact ⟨row, List.mem_cons_of_mem _ hrow, e, he, hei⟩
    · rename_i e heq
      cases hrest : lookup_ids db scope_name design_name xs with
      | error err => rw [hrest] at h; cases h
      | ok ids0 =>
        rw [hrest] at h
        simp only [Except.map, Except.ok.injEq] at h
        rw [← h] at hi
        rcases List.mem_cons.mp hi with hie | hi0
        · exact ⟨x, List.mem_cons_self x xs, e, by rw [heq]; exact List.mem_singleton.mpr rfl, hie.symm⟩
        · obtain ⟨row, hrow, e2, he2, hei⟩ := ih ids0 hrest i hi0
          exact ⟨row, List.mem_cons_of_mem _ hrow, e2, he2, hei⟩
    · cases h

/-- C5: `read_experiment_ids` is a reverse lookup from parameter rows
to experiment ids: it fails NotFound when the scope is absent, fails
InvalidArgument whenever some input row's values match more than one
stored experiment, every returned id is the id of a stored experiment
matching the corresponding row, and a `none` design searches across all
designs — an experiment of the scope is considered no matter which
design it belongs to. -/
theorem read_experiment_ids_reverse_lookup (db : DB V) (scope_name : String)
    (design_name : Option String) (xl_df : List (Row V)) :
    (scope_name ∉ db.scopes →
      read_experiment_ids db scope_name design_name xl_df = .error .notFound)
    ∧ (scope_name ∈ db.scopes →
        (∃ row ∈ xl_df, ∃ e1 e2,
            e1 ∈ matching_experiments db scope_name design_name row ∧
            e2 ∈ matching_experiments db scope_name design_name row ∧ e1 ≠ e2) →
      read_experiment_ids db scope_name design_name xl_df
        = .error .invalidArgument)
    ∧ (∀ ids, read_experiment_ids db scope_name design_name xl_df = .ok ids →
        ∀ i ∈ ids, ∃ row ∈ xl_df,
          ∃ e ∈ matching_experiments db scope_name design_name row,
            e.exp_id = i)
    ∧ (∀ (row : Row V) (e : Experiment V),
        e ∈ matching_experiments db scope_name none row ↔
          (scope_name, e) ∈ db.experiments ∧ row_matches e row = true) := by
  refine ⟨?_, ?_, ?_, ?_⟩
  · intro h
    simp [read_experiment_ids, h]
  · intro hs hamb
    obtain ⟨row, hrow, e1, e2, h1, h2, hne⟩ := hamb
    simp only [read_experiment_ids, if_pos hs]
    exact lookup_ids_ambiguous db scope_name design_name xl_df row hrow
      e1 e2 h1 h2 hne
  · intro ids h
    by_cases hs : scope_name ∈ db.scopes
    · simp only [read_experiment_ids, if_pos hs] at h
      exact lookup_ids_ok db scope_name design_name xl_df ids h
    · simp [read_experiment_ids, hs] at h
  · intro row e
    constructor
    · intro he
      simp only [matching_experiments, List.mem_filter] at he
      obtain ⟨hmem, hm⟩ := he
      simp only [experimentsOf, List.mem_map] at hmem
      obtain ⟨p, hp, hpe⟩ := hmem
      simp only [List.mem_filter, Bool.and_eq_true, beq_iff_eq] at hp
      refine ⟨?_, hm⟩
      have hpeq : p = (scope_name, e) := by
        cases p with
        | mk a b =>
          simp only at hpe
          simp only [Prod.mk.injEq]
          exact ⟨hp.2.1, hpe⟩
      rw [← hpeq]
      exact hp.1
    · intro ⟨hmem, hm⟩
      simp only [matching_experiments, List.mem_filter]
      refine ⟨?_, hm⟩
      simp only [experimentsOf, List.mem_map]
      refine ⟨(scope_name, e), ?_, rfl⟩
      simp [List.mem_filter, hmem]

/-- Witness for C5 at a concrete database: two stored experiments with
identical values make a lookup row ambiguous, so the reverse lookup
fails InvalidArgument, and a lookup under an unregistered scope name
fails NotFound. -/
theorem read_experiment_ids_reverse_lookup_witness :
    read_experiment_ids
        (DB.mk ["s"] [("s", 2)]
          [("s", Experiment.mk 0 "d" [("x", 1)]),
           ("s", Experiment.mk 1 "d" [("x", 1)])] [] [] [] : DB Nat)
        "s" (some "d") [[("x", 1)]] = .error .invalidArgument
    ∧ read_experiment_ids (DB.mk ["s"] [] [] [] [] [] : DB Nat)
        "t" none [] = .error .notFound :=
  ⟨(read_experiment_ids_reverse_lookup
      (DB.mk ["s"] [("s", 2)]
        [("s", Experiment.mk 0 "d" [("x", 1)]),
         ("s", Experiment.mk 1 "d" [("x", 1)])] [] [] [])
      "s" (some "d") [[("x", 1)]]).2.1 (by decide)
      ⟨[("x", 1)], by decide, Experiment.mk 0 "d" [("x", 1)],
        Experiment.mk 1 "d" [("x", 1)], by decide, by decide, by decide⟩,
   (read_experiment_ids_reverse_lookup
      (DB.mk ["s"] [] [] [] [] []) "t" none []).1 (by decide)⟩

theorem ids_of_delete_experiments (db : DB V) (scope_name d : String) :
    ∀ i ∈ ids_of (delete_experiments db scope_name d) scope_name,
      i ∈ ids_of db scope_name := by
  intro i hi
  simp only [ids_of, delete_experiments, List.mem_map, List.mem_filter] at hi ⊢
  obtain ⟨p, ⟨⟨hp, _⟩, hps⟩, hpe⟩ := hi
  exact ⟨p, ⟨hp, hps⟩, hpe⟩

/-- C6: ids assigned by `write_experiment_parameters` in a scope.  A
successful call returns the ids next-counter, next-counter + 1, … in
input-row order (so the j-th row is stored under the j-th returned id);
they are pairwise distinct and strictly increasing; under the counter
invariant they are fresh — distinct from and greater than every
previously stored id of the scope — and the invariant is re-established
afterwards; and `delete_experiments` keeps the counter, so deletion
never causes an id to be reused. -/
theorem write_experiment_parameters_id_assignment (db : DB V)
    (scope_name design_name : String) (xl_df : List (Row V))
    (db2 : DB V) (ids : List Nat)
    (h : write_experiment_parameters db scope_name design_name xl_df
        = .ok (db2, ids)) :
    ids = (List.range xl_df.length).map
        (fun j => get_next db.next_id scope_name + j)
    ∧ ids.Nodup
    ∧ List.Pairwise (· < ·) ids
    ∧ ids.length = xl_df.length
    ∧ ids_of db2 scope_name = ids_of db scope_name ++ ids
    ∧ (∀ j, (hj : j < xl_df.length) →
        (scope_name, Experiment.mk (get_next db.next_id scope_name + j)
            design_name (xl_df.get ⟨j, hj⟩)) ∈ db2.experiments)
    ∧ (id_invariant db scope_name →
        (∀ i ∈ ids, i ∉ ids_of db scope_name)
        ∧ (∀ i ∈ ids, ∀ i0 ∈ ids_of db scope_name, i0 < i)
        ∧ id_invariant db2 scope_name)
    ∧ (∀ (db3 : DB V) d, id_invariant db3 scope_name →
        id_invariant (delete_experiments db3 scope_name d) scope_name
        ∧ (delete_experiments db3 scope_name d).next_id = db3.next_id) := by
  unfold write_experiment_parameters at h
  split at h
  case isFalse => exact absurd h (by simp)
  case isTrue hs =>
  simp only [Except.ok.injEq, Prod.mk.injEq] at h
  obtain ⟨hdb2, hids⟩ := h
  subst hids
  subst hdb2
  have hlen : ((List.range xl_df.length).map
      (fun j => get_next db.next_id scope_name + j)).length
      = xl_df.length := by simp
  have hzlen : (xl_df.zip ((List.range xl_df.length).map
      (fun j => get_next db.next_id scope_name + j))).length
      = xl_df.length := by
    simp [List.length_zip]
  have hall : List.filter (fun p => p.1 == scope_name)
      ((xl_df.zip ((List.range xl_df.length).map
          (fun j => get_next db.next_id scope_name + j))).map
        (fun p => (scope_name, Experiment.mk p.2 design_name p.1)))
      = (xl_df.zip ((List.range xl_df.length).map
          (fun j => get_next db.next_id scope_name + j))).map
        (fun p => (scope_name, Experiment.mk p.2 design_name p.1)) := by
    rw [List.filter_eq_self]
    intro p hp
    simp only [List.mem_map] at hp
    obtain ⟨q, _, hq⟩ := hp
    rw [← hq]
    exact beq_self_eq_true scope_name
  have hsplit : ∀ (ms : List (String × MeasureRec V)) bs mm,
      ids_of (DB.mk db.scopes
        ((scope_name, get_next db.next_id scope_name + xl_df.length)
          :: db.next_id)
        (db.experiments ++ (xl_df.zip ((List.range xl_df.length).map
            (fun j => get_next db.next_id scope_name + j))).map
          (fun p => (scope_name, Experiment.mk p.2 design_name p.1)))
        ms bs mm) scope_name
      = ids_of db scope_name ++ (List.range xl_df.length).map
          (fun j => get_next db.next_id scope_name + j) := by
    intro ms bs mm
    simp only [ids_of, List.filter_append, List.map_append]
    congr 1
    rw [hall, List.map_map]
    have hcomp : ((fun p : String × Experiment V => p.2.exp_id) ∘
        (fun p : Row V × Nat =>
          (scope_name, Experiment.mk p.2 design_name p.1)))
        = Prod.snd := rfl
    rw [hcomp]
    exact List.map_snd_zip xl_df _ (by rw [hlen])
  refine ⟨rfl, ?_, ?_, hlen, hsplit db.measures db.boxes db.metamodels,
    ?_, ?_, ?_⟩
  · exact (List.nodup_range xl_df.length).map
      (add_right_injective (get_next db.next_id scope_name))
  · exact (List.pairwise_lt_range xl_df.length).map _
      (fun a b hab =>
        Nat.add_lt_add_left hab (get_next db.next_id scope_name))
  · intro j hj
    apply List.mem_append_right
    have hjz : j < ((xl_df.zip ((List.range xl_df.length).map
        (fun j => get_next db.next_id scope_name + j))).map
        (fun p => (scope_name, Experiment.mk p.2 design_name p.1))).length := by
      simpa [hzlen] using hj
    have hje : ((xl_df.zip ((List.range xl_df.length).map
        (fun j => get_next db.next_id scope_name + j))).map
        (fun p => (scope_name, Experiment.mk p.2 design_name p.1)))[j]
        = (scope_name, Experiment.mk (get_next db.next_id scope_name + j)
            design_name (xl_df.get ⟨j, hj⟩)) := by
      rw [List.getElem_map, List.getElem_zip]
      simp only [List.getElem_map, List.getElem_range]
      rfl
    rw [← hje]
    exact List.getElem_mem hjz
  · intro hinv
    have hge : ∀ i ∈ (List.range xl_df.length).map
        (fun j => get_next db.next_id scope_name + j),
        get_next db.next_id scope_name ≤ i := by
      intro i hi
      simp only [List.mem_map, List.mem_range] at hi
      obtain ⟨j, _, hji⟩ := hi
      rw [← hji]
      exact Nat.le_add_right _ j
    refine ⟨?_, ?_, ?_⟩
    · intro i hi hmem
      exact absurd (hinv i hmem) (Nat.not_lt.mpr (hge i hi))
    · intro i hi i0 hi0
      exact Nat.lt_of_lt_of_le (hinv i0 hi0) (hge i hi)
    · intro i hi
      rw [hsplit db.measures db.boxes db.metamodels] at hi
      have hnext2 : get_next
          ((scope_name, get_next db.next_id scope_name + xl_df.length)
            :: db.next_id) scope_name
          = get_next db.next_id scope_name + xl_df.length := by
        simp [get_next, List.lookup]
      show i < get_next _ scope_name
      rw [hnext2]
      rcases List.mem_append.mp hi with hold | hnew
      · exact Nat.lt_of_lt_of_le (hinv i hold) (Nat.le_add_right _ _)
      · simp only [List.mem_map, List.mem_range] at hnew
        obtain ⟨j, hjlt, hji⟩ := hnew
        rw [← hji]
        exact Nat.add_lt_add_left hjlt _
  · intro db3 d hinv3
    refine ⟨?_, rfl⟩
    intro i hi
    have hsame : get_next (delete_experiments db3 scope_name d).next_id
        scope_name = get_next db3.next_id scope_name := rfl
    rw [hsame]
    exact hinv3 i (ids_of_delete_experiments db3 scope_name d i hi)

/-- Witness for C6 at a concrete database already holding one
experiment with id 0 and counter 1: a two-row write is assigned the
fresh ids 1 and 2, in row order. -/
theorem write_experiment_parameters_id_assignment_witness :
    (let db := DB.mk ["s"] [("s", 1)]
        [("s", Experiment.mk 0 "d" [("x", 9)])] [] [] [] (V := Nat)
     let db2 := DB.mk ["s"] [("s", 3), ("s", 1)]
        [("s", Experiment.mk 0 "d" [("x", 9)]),
         ("s", Experiment.mk 1 "e" [("x", 1)]),
         ("s", Experiment.mk 2 "e" [("x", 2)])] [] [] []
     [1, 2] = (List.range 2).map (fun j => get_next db.next_id "s" + j)
     ∧ [1, 2].Nodup
     ∧ ids_of db2 "s" = ids_of db "s" ++ [1, 2]) := by
  have h := write_experiment_parameters_id_assignment
    (DB.mk ["s"] [("s", 1)] [("s", Experiment.mk 0 "d" [("x", 9)])] [] [] [])
    "s" "e" [[("x", 1)], [("x", 2)]]
    (DB.mk ["s"] [("s", 3), ("s", 1)]
      [("s", Experiment.mk 0 "d" [("x", 9)]),
       ("s", Experiment.mk 1 "e" [("x", 1)]),
       ("s", Experiment.mk 2 "e" [("x", 2)])] [] [] [])
    [1, 2] rfl
  exact ⟨h.1, h.2.1, h.2.2.2.2.1⟩

/-- C7: pending semantics.  Under `only_pending = true`, an experiment
appears in the result of `read_experiment_parameters` (and in the
parameter part of `read_experiment_all`) exactly when it is stored
under the scope (and design filter) and no measure record exists for it
under any source. -/
theorem only_pending_iff_no_measures (db : DB V) (scope_name : String)
    (design : Option String) (e : Experiment V) :
    (∀ res, read_experiment_parameters db scope_name design true = .ok res →
      (e ∈ res ↔ e ∈ experimentsOf db scope_name design
        ∧ ¬∃ p ∈ db.measures, p.1 = scope_name ∧ p.2.exp_id = e.exp_id))
    ∧ (∀ src res2, read_experiment_all db scope_name design src true
          = .ok res2 →
      (e ∈ res2.map Prod.fst ↔ e ∈ experimentsOf db scope_name design
        ∧ ¬∃ p ∈ db.measures, p.1 = scope_name ∧ p.2.exp_id = e.exp_id)) := by
  have key : ∀ res,
      read_experiment_parameters db scope_name design true = .ok res →
      (e ∈ res ↔ e ∈ experimentsOf db scope_name design
        ∧ ¬∃ p ∈ db.measures, p.1 = scope_name ∧ p.2.exp_id = e.exp_id) := by
    intro res h
    by_cases hs : scope_name ∈ db.scopes
    · simp only [read_experiment_parameters, if_pos hs, if_true,
        Except.ok.injEq] at h
      rw [← h]
      simp only [List.mem_filter, has_measures, Bool.not_eq_true',
        List.any_eq_false, Bool.and_eq_true, beq_iff_eq, not_exists, not_and]
    · simp [read_experiment_parameters, hs] at h
  refine ⟨key, ?_⟩
  intro src res2 h
  by_cases hs : scope_name ∈ db.scopes
  · simp only [read_experiment_all, if_pos hs] at h
    cases hres : resolve_source db scope_name src with
    | error err => rw [hres] at h; cases h
    | ok s? =>
      rw [hres] at h
      cases hrep : read_experiment_parameters db scope_name design true with
      | error err => rw [hrep] at h; cases h
      | ok exps =>
        rw [hrep] at h
        simp only [Except.ok.injEq] at h
        rw [← h, List.map_map]
        have hfst : e ∈ exps ↔ e ∈ experimentsOf db scope_name design
            ∧ ¬∃ p ∈ db.measures, p.1 = scope_name
              ∧ p.2.exp_id = e.exp_id := key exps hrep
        simpa using hfst
  · simp [read_experiment_all, hs] at h

/-- Witness for C7 at a concrete database holding a pending experiment
(id 1) and an experiment with a stored measure (id 0): the pending read
returns exactly the pending one. -/
theorem only_pending_iff_no_measures_witness :
    (Experiment.mk 1 "d" [("x", 2)] : Experiment Nat)
      ∈ [Experiment.mk 1 "d" [("x", 2)]]
    ↔ (Experiment.mk 1 "d" [("x", 2)])
        ∈ experimentsOf (DB.mk ["s"] [("s", 2)]
            [("s", Experiment.mk 0 "d" [("x", 1)]),
             ("s", Experiment.mk 1 "d" [("x", 2)])]
            [("s", MeasureRec.mk 0 0 "m" 10)] [] [] : DB Nat) "s" none
      ∧ ¬∃ p ∈ (DB.mk ["s"] [("s", 2)]
            [("s", Experiment.mk 0 "d" [("x", 1)]),
             ("s", Experiment.mk 1 "d" [("x", 2)])]
            [("s", MeasureRec.mk 0 0 "m" 10)] [] [] : DB Nat).measures,
          p.1 = "s" ∧ p.2.exp_id = (Experiment.mk 1 "d" [("x", 2)]).exp_id :=
  (only_pending_iff_no_measures
    (DB.mk ["s"] [("s", 2)]
      [("s", Experiment.mk 0 "d" [("x", 1)]),
       ("s", Experiment.mk 1 "d" [("x", 2)])]
      [("s", MeasureRec.mk 0 0 "m" 10)] [] [])
    "s" none (Experiment.mk 1 "d" [("x", 2)])).1
    [Experiment.mk 1 "d" [("x", 2)]] rfl

/-- C8: after `delete_scope S` the scope name is gone from the listing,
every listed read touching S fails NotFound, and no experiment,
measure, box or metamodel record of S remains in the state. -/
theorem delete_scope_cascades (db : DB V) (S : String) :
    S ∉ read_scope_names (delete_scope db S) none
    ∧ (∀ design op, read_experiment_parameters (delete_scope db S) S design op
        = .error .notFound)
    ∧ read_boxes (delete_scope db S) S = .error .notFound
    ∧ read_metamodel_ids (delete_scope db S) S = .error .notFound
    ∧ (∀ p ∈ (delete_scope db S).experiments, p.1 ≠ S)
    ∧ (∀ p ∈ (delete_scope db S).measures, p.1 ≠ S)
    ∧ (∀ p ∈ (delete_scope db S).boxes, p.1 ≠ S)
    ∧ (∀ p ∈ (delete_scope db S).metamodels, p.1 ≠ S) := by
  have hS : S ∉ (delete_scope db S).scopes := by
    intro hmem
    simp only [delete_scope, List.mem_filter, Bool.not_eq_true'] at hmem
    simp at hmem
  refine ⟨hS, ?_, ?_, ?_, ?_, ?_, ?_, ?_⟩
  · intro design op
    simp [read_experiment_parameters, hS]
  · simp [read_boxes, hS]
  · simp [read_metamodel_ids, hS]
  · intro p hp
    simp only [delete_scope, List.mem_filter, Bool.not_eq_true',
      beq_eq_false_iff_ne] at hp
    exact hp.2
  · intro p hp
    simp only [delete_scope, List.mem_filter, Bool.not_eq_true',
      beq_eq_false_iff_ne] at hp
    exact hp.2
  · intro p hp
    simp only [delete_scope, List.mem_filter, Bool.not_eq_true',
      beq_eq_false_iff_ne] at hp
    exact hp.2
  · intro p hp
    simp only [delete_scope, List.mem_filter, Bool.not_eq_true',
      beq_eq_false_iff_ne] at hp
    exact hp.2

/-- Witness for C8 at a concrete database with two scopes: deleting
scope "b" removes it from the listing, makes its reads fail NotFound,
and the surviving experiment record belongs to scope "a", not "b". -/
theorem delete_scope_cascades_witness :
    "b" ∉ read_scope_names
      (delete_scope (DB.mk ["a", "b"] []
        [("a", Experiment.mk 0 "d" [("x", 1)]),
         ("b", Experiment.mk 0 "d" [("x", 2)])]
        [("b", MeasureRec.mk 0 0 "m" 10)] [("b", BoxRec.mk "box0" none)]
        [("b", 1)] : DB Nat) "b") none
    ∧ read_experiment_parameters
      (delete_scope (DB.mk ["a", "b"] []
        [("a", Experiment.mk 0 "d" [("x", 1)]),
         ("b", Experiment.mk 0 "d" [("x", 2)])]
        [("b", MeasureRec.mk 0 0 "m" 10)] [("b", BoxRec.mk "box0" none)]
        [("b", 1)] : DB Nat) "b") "b" none false = .error .notFound
    ∧ ("a", (Experiment.mk 0 "d" [("x", 1)] : Experiment Nat)).1 ≠ "b" := by
  have h := delete_scope_cascades (DB.mk ["a", "b"] []
    [("a", Experiment.mk 0 "d" [("x", 1)]),
     ("b", Experiment.mk 0 "d" [("x", 2)])]
    [("b", MeasureRec.mk 0 0 "m" 10)] [("b", BoxRec.mk "box0" none)]
    [("b", 1)] : DB Nat) "b"
  exact ⟨h.1, h.2.1 none false,
    h.2.2.2.2.1 ("a", Experiment.mk 0 "d" [("x", 1)]) (by decide)⟩

theorem find_box_of_mem :
    ∀ (l : List BoxRec), ((l.map BoxRec.box_name).Nodup) →
    ∀ b ∈ l, l.find? (fun b2 => b2.box_name == b.box_name) = some b := by
  intro l
  induction l with
  | nil => intro _ b hb; cases hb
  | cons x xs ih =>
    intro hnd b hb
    simp only [List.map_cons, List.nodup_cons] at hnd
    rcases List.mem_cons.mp hb with hbx | hbxs
    · subst hbx
      exact List.find?_cons_of_pos _ (beq_self_eq_true b.box_name)
    · have hne : (x.box_name == b.box_name) = false := by
        rw [beq_eq_false_iff_ne]
        intro heq
        exact hnd.1 (heq ▸ List.mem_map_of_mem BoxRec.box_name hbxs)
      rw [List.find?_cons_of_neg _ (by simp [hne])]
      exact ih hnd.2 b hbxs

/-- C9: box parent lookups.  When box names are unique within the scope
(a spec invariant), `read_box_parent_name` on a root box returns the
none value and on a box with parent P returns P; the bulk
`read_box_parent_names` mapping has exactly the scope's box names as
keys and agrees with the individual lookups. -/
theorem box_parent_lookup (db : DB V) (scope_name : String)
    (hnd : ((boxesOf db scope_name).map BoxRec.box_name).Nodup) :
    (∀ b ∈ boxesOf db scope_name, b.parent = none →
        read_box_parent_name db scope_name b.box_name = .ok none)
    ∧ (∀ b ∈ boxesOf db scope_name, ∀ P, b.parent = some P →
        read_box_parent_name db scope_name b.box_name = .ok (some P))
    ∧ (read_box_parent_names db scope_name).map Prod.fst
        = (boxesOf db scope_name).map BoxRec.box_name
    ∧ (∀ q ∈ read_box_parent_names db scope_name,
        read_box_parent_name db scope_name q.1 = .ok q.2) := by
  have hfind : ∀ b ∈ boxesOf db scope_name,
      read_box_parent_name db scope_name b.box_name = .ok b.parent := by
    intro b hb
    unfold read_box_parent_name
    rw [find_box_of_mem (boxesOf db scope_name) hnd b hb]
  refine ⟨?_, ?_, ?_, ?_⟩
  · intro b hb hroot
    rw [hfind b hb, hroot]
  · intro b hb P hP
    rw [hfind b hb, hP]
  · simp [read_box_parent_names, List.map_map]
  · intro q hq
    simp only [read_box_parent_names, List.mem_map] at hq
    obtain ⟨b, hb, hbq⟩ := hq
    rw [← hbq]
    exact hfind b hb

/-- Witness for C9 at a concrete database with a root box and a child
box: the root's parent lookup returns the none value, the child's
returns the root's name, and the bulk mapping lists both names. -/
theorem box_parent_lookup_witness :
    read_box_parent_name (DB.mk ["s"] [] [] []
        [("s", BoxRec.mk "root" none), ("s", BoxRec.mk "kid" (some "root"))]
        [] : DB Nat) "s" "root" = .ok none
    ∧ read_box_parent_name (DB.mk ["s"] [] [] []
        [("s", BoxRec.mk "root" none), ("s", BoxRec.mk "kid" (some "root"))]
        [] : DB Nat) "s" "kid" = .ok (some "root")
    ∧ (read_box_parent_names (DB.mk ["s"] [] [] []
        [("s", BoxRec.mk "root" none), ("s", BoxRec.mk "kid" (some "root"))]
        [] : DB Nat) "s").map Prod.fst
      = (boxesOf (DB.mk ["s"] [] [] []
        [("s", BoxRec.mk "root" none), ("s", BoxRec.mk "kid" (some "root"))]
        [] : DB Nat) "s").map BoxRec.box_name := by
  have h := box_parent_lookup (DB.mk ["s"] [] [] []
    [("s", BoxRec.mk "root" none), ("s", BoxRec.mk "kid" (some "root"))]
    [] : DB Nat) "s" (by decide)
  exact ⟨h.1 (BoxRec.mk "root" none) (by decide) rfl,
    h.2.1 (BoxRec.mk "kid" (some "root")) (by decide) "root" rfl,
    h.2.2.1⟩

end EmatDB
